import Mathlib

/-!
Verification of the loading-cache-streaming-partitioning subsystem of the
llamadatasets repository against its natural-language specification.

The repository ships only the package import shims (`__init__.py` files) and
example scripts; the implementation modules they import
(`llamadatasets.core.dataloader`, `llamadatasets.core.dataset`,
`llamadatasets.core.streaming`, `llamadatasets.splitters.base`, ...) are not
present.  The definitions below therefore model the missing components from
the specification text, while the package-import structure at the end is
transcribed directly from the `__init__.py` sources that are present.
-/

namespace LlamaDatasets

/-- Modelled from the spec: an Example is a mapping from field name to value
(the missing module `llamadatasets.core.dataset` defines it); field values are
modelled as strings, which suffices for label, timestamp and group keys. -/
def Example := List (String × String)

instance : DecidableEq Example := by
  unfold Example; infer_instance

/-- Modelled from the spec: field lookup on an Example. -/
def getField (e : Example) (k : String) : Option String :=
  (e.find? (fun p => p.1 == k)).map Prod.snd

/-- Modelled from the spec: a Dataset is an ordered, finite, indexable
sequence of Examples (missing module `llamadatasets.core.dataset`). -/
structure Dataset where
  examples : List Example

/-- Modelled from the spec: number of examples of a Dataset. -/
def Dataset.length (d : Dataset) : Nat := d.examples.length

/-- Modelled from the spec: `filter` returns a new Dataset with the
order-preserving subsequence of examples satisfying the predicate. -/
def Dataset.filter (d : Dataset) (p : Example → Bool) : Dataset :=
  ⟨d.examples.filter p⟩

/-- Modelled from the spec: `map` returns a new Dataset with one output
example per input example, in the same index order. -/
def Dataset.map (d : Dataset) (f : Example → Example) : Dataset :=
  ⟨d.examples.map f⟩

/-- Modelled from the spec: a Record Source yields records in bounded-size
chunks, each chunk a finite ordered sequence of examples. -/
structure RecordSource where
  chunks : List (List Example)

/-- Modelled from the spec: a StreamingDataset wraps a Record Source handle;
the handle is opened lazily, not at construction (missing module
`llamadatasets.core.streaming`).  `handleOpen` records whether the underlying
source handle has been opened. -/
structure StreamingDataset where
  source : RecordSource
  handleOpen : Bool

/-- Modelled from the spec: a full single pass over a StreamingDataset yields
the source chunks concatenated in file order. -/
def StreamingDataset.iterate (sd : StreamingDataset) : List Example :=
  sd.source.chunks.flatten

/-- Modelled from the spec: carve a stream into batches of size `k`
(the final batch may be shorter); `k = 0` yields no batches. -/
def batchesOf : Nat → List α → List (List α)
  | _, [] => []
  | 0, _ :: _ => []
  | Nat.succ m, x :: xs => (x :: xs.take m) :: batchesOf (Nat.succ m) (xs.drop m)
termination_by _ l => l.length
decreasing_by
  simp only [List.length_cons]
  have := List.length_drop m xs
  omega

/-- Modelled from the spec: `iter_batches(batch_size)` returns the batches
carved in order from the underlying chunk stream; batch boundaries are
independent of chunk boundaries. -/
def StreamingDataset.iterBatches (sd : StreamingDataset) (k : Nat) :
    List (List Example) :=
  batchesOf k sd.iterate

/-- Modelled from the spec: collect the first `n` examples, consuming chunks
one at a time and only as many as needed. -/
def headChunks : Nat → List (List Example) → List Example
  | _, [] => []
  | n, c :: cs =>
    if n ≤ c.length then c.take n
    else c ++ headChunks (n - c.length) cs

/-- Modelled from the spec: `head(n)` materializes the first
`min(n, total)` examples of a StreamingDataset into a Dataset. -/
def StreamingDataset.head (sd : StreamingDataset) (n : Nat) : Dataset :=
  ⟨headChunks n sd.source.chunks⟩

/-- Modelled from the spec: a deterministic pseudo-random step; the seed is
the sole source of randomness for any randomized splitter step.  A 64-bit
linear congruential generator, with overflow made explicit. -/
def lcgNext (s : Nat) : Nat :=
  (6364136223846793005 * s + 1442695040888963407) % (2 ^ 64)

/-- Remove the element at position `i` from a list. -/
def removeAt (l : List α) (i : Nat) : List α :=
  l.take i ++ l.drop (i + 1)

/-- Modelled from the spec: the seed-driven Fisher-Yates style generation of
a permutation of a list, with a fuel argument bounding the recursion. -/
def shuffleFuel : Nat → Nat → List α → List α
  | 0, _, _ => []
  | Nat.succ fuel, s, l =>
    match l[s % l.length]? with
    | none => []
    | some x => x :: shuffleFuel fuel (lcgNext s) (removeAt l (s % l.length))

/-- Modelled from the spec: the seeded permutation of a list; same seed,
same list, same output. -/
def seededShuffle (seed : Nat) (l : List α) : List α :=
  shuffleFuel l.length (lcgNext seed) l

/-- Modelled from the spec: the intended size of one split,
`round(proportion * N)` with `round(x) = floor(x + 1/2)`, computed on the
numerator and denominator of the rational proportion so that it stays
kernel-evaluable: `floor(n/d * N + 1/2) = (2*n*N + d) fdiv (2*d)`. -/
def sizeFor (q : ℚ) (N : Nat) : Nat :=
  ((2 * q.num * N + q.den).fdiv (2 * q.den)).toNat

/-- Modelled from the spec: cut a list into contiguous runs of the given
sizes, in declared order; the last declared run receives everything that
remains (the rounding remainder). -/
def cutRuns : List Nat → List α → List (List α)
  | [], _ => []
  | [_], l => [l]
  | n :: m :: ns, l => l.take n :: cutRuns (m :: ns) (l.drop n)

/-- Modelled from the spec: group a keyed list into per-key groups, whole
groups kept together, keys in order of first appearance; the fuel argument
bounds the recursion structurally. -/
def groupPairsFuel : Nat → List (String × α) → List (String × List α)
  | 0, _ => []
  | Nat.succ _, [] => []
  | Nat.succ fuel, (k, v) :: rest =>
    (k, v :: (rest.filter (fun p => p.1 == k)).map Prod.snd) ::
      groupPairsFuel fuel (rest.filter (fun p => !(p.1 == k)))

/-- Modelled from the spec: group a keyed list into per-key groups. -/
def groupPairs (l : List (String × α)) : List (String × List α) :=
  groupPairsFuel l.length l

/-- Modelled from the spec: insert an element into a sorted list, placing it
after existing elements it does not strictly precede (stable for ties). -/
def insertSorted (le : α → α → Bool) (x : α) : List α → List α
  | [] => [x]
  | y :: ys => if le y x then y :: insertSorted le x ys else x :: y :: ys

/-- Modelled from the spec: a stable ascending sort, used by the
chronological splitter (ties keep original index order by sorting on the
pair of timestamp and original index). -/
def sortedBy (le : α → α → Bool) : List α → List α
  | [] => []
  | x :: xs => insertSorted le x (sortedBy le xs)

/-- Add two fractions given as numerator-denominator pairs, without
normalization, so that the computation stays kernel-evaluable. -/
def addFrac (a b : Int × Nat) : Int × Nat :=
  (a.1 * b.2 + b.1 * a.2, a.2 * b.2)

/-- The exact sum of the proportions as one unreduced fraction. -/
def propsFracSum (props : List (String × ℚ)) : Int × Nat :=
  props.foldr (fun p acc => addFrac (p.2.num, p.2.den) acc) (0, 1)

/-- Modelled from the spec: validation of named proportions; with the exact
sum written as `n / d` (with `d > 0`), the requirement
`|n/d - 1| < 1/1000000` is the integer inequality `1000000 * |n - d| < d`. -/
def propsValid (props : List (String × ℚ)) : Bool :=
  1000000 * ((propsFracSum props).1 - ((propsFracSum props).2 : Int)).natAbs
    < (propsFracSum props).2

/-- Modelled from the spec: the declared run sizes
`round(proportion * N)` for each split, in declared order. -/
def runSizes (props : List (String × ℚ)) (N : Nat) : List Nat :=
  props.map (fun p => sizeFor p.2 N)

/-- Modelled from the spec: the RandomSplitter core algorithm on an index
list: permute by the seed, then cut into contiguous runs, the last run
taking the rounding remainder. -/
def randomRuns (props : List (String × ℚ)) (seed : Nat) (idxs : List Nat) :
    List (List Nat) :=
  cutRuns (runSizes props idxs.length) (seededShuffle seed idxs)

/-- The empty key, used for examples lacking the designated field. -/
def emptyKey : String := ""

/-- Modelled from the spec: label of an example under a designated field,
absent fields grouped under the empty label. -/
def fieldKey (col : String) (e : Example) : String :=
  (getField e col).getD emptyKey

/-- Modelled from the spec: the pairs of designated key and index for a
dataset, in index order. -/
def keyedIndices (col : String) (d : Dataset) : List (String × Nat) :=
  d.examples.enum.map (fun p => (fieldKey col p.2, p.1))

/-- Modelled from the spec: per-split concatenation of per-group runs: for
split position j, concatenate the j-th run of every label group. -/
def stratParts (props : List (String × ℚ)) (seed : Nat)
    (groupIdxs : List (List Nat)) : List (List Nat) :=
  (List.range props.length).map
    (fun j => (groupIdxs.map (fun g => (randomRuns props seed g).getD j [])).flatten)

/-- Modelled from the spec: the closed set of Splitter variants
(missing module `llamadatasets.splitters.base`). -/
inductive Splitter
  | random (props : List (String × ℚ)) (seed : Nat)
  | stratified (labelColumn : String) (props : List (String × ℚ)) (seed : Nat)
  | time (timeColumn : String) (props : List (String × ℚ)) (seed : Nat)
  | group (groupColumn : String) (props : List (String × ℚ)) (seed : Nat)
  | custom (assign : Example → Option String)

/-- Modelled from the spec: splitter contract violations. -/
inductive SplitError
  | invalidProportions
  | incompleteAssignment
deriving DecidableEq

/-- Modelled from the spec: `split` maps each index of the dataset to
exactly one named split; returned as an association of split name to index
list.  Proportions failing validation give `InvalidProportions`; a custom
assignment leaving an index unassigned gives `IncompleteAssignment`. -/
def Splitter.splitIndices : Splitter → Dataset →
    Except SplitError (List (String × List Nat))
  | .random props seed, d =>
    if propsValid props then
      .ok (List.zip (props.map Prod.fst)
        (randomRuns props seed (List.range d.length)))
    else .error .invalidProportions
  | .stratified lbl props seed, d =>
    if propsValid props then
      .ok (List.zip (props.map Prod.fst)
        (stratParts props seed ((groupPairs (keyedIndices lbl d)).map Prod.snd)))
    else .error .invalidProportions
  | .time tcol props _, d =>
    if propsValid props then
      .ok (List.zip (props.map Prod.fst)
        (cutRuns (runSizes props d.length)
          ((sortedBy (fun a b => a.1 < b.1 || (a.1 == b.1 && a.2 ≤ b.2))
            (keyedIndices tcol d)).map Prod.snd)))
    else .error .invalidProportions
  | .group gcol props seed, d =>
    if propsValid props then
      let groups := groupPairs (keyedIndices gcol d)
      .ok (List.zip (props.map Prod.fst)
        ((cutRuns (runSizes props groups.length) (seededShuffle seed groups)).map
          (fun run => (run.map Prod.snd).flatten)))
    else .error .invalidProportions
  | .custom assign, d =>
    let pairs := d.examples.enum.map (fun p => (assign p.2, p.1))
    if pairs.all (fun a => a.1.isSome) then
      .ok (groupPairs (pairs.map (fun a => (a.1.getD emptyKey, a.2))))
    else .error .incompleteAssignment

/-- Modelled from the spec: `CacheConfig {enabled, location, expiration}`;
the location is an opaque path string, the expiration a duration in
seconds. -/
structure CacheConfig where
  enabled : Bool
  location : String
  expiration : Nat

/-- Modelled from the spec: a Cache Entry holds a creation timestamp, the
stored source-modification marker, and a serialized Dataset snapshot. -/
structure CacheEntry where
  created_at : Nat
  source_marker : Nat
  snapshot : List Example

/-- Modelled from the spec: the environment of one load call: the source
(absent when unavailable), whether the format token is supported, the
current time, the source's current modification marker, the cache entry
stored under the derived key, and whether the cache location is writable. -/
structure LoadEnv where
  source : Option RecordSource
  formatSupported : Bool
  now : Nat
  sourceMarker : Nat
  cacheEntry : Option CacheEntry
  cacheWritable : Bool

/-- Modelled from the spec: fatal load failures. -/
inductive LoadError
  | sourceUnavailable
  | unsupportedFormat
deriving DecidableEq

/-- Modelled from the spec: the result of a load is either a materialized
Dataset or a StreamingDataset. -/
inductive LoadResult
  | materialized (d : Dataset)
  | streamed (s : StreamingDataset)

/-- Modelled from the spec: Cache Manager lookup.  An entry is valid iff
`now - entry.created_at < expiration` and the stored source-modification
marker matches the current source's marker; any mismatch is a miss. -/
def cacheLookup (cfg : CacheConfig) (env : LoadEnv) : Option (List Example) :=
  if cfg.enabled then
    match env.cacheEntry with
    | none => none
    | some e =>
      if env.now - e.created_at < cfg.expiration ∧
          e.source_marker = env.sourceMarker then
        some e.snapshot
      else none
  else none

/-- Modelled from the spec: pull all chunks of a Record Source and
concatenate them into a Dataset. -/
def parseAll (rs : RecordSource) : Dataset := ⟨rs.chunks.flatten⟩

/-- Modelled from the spec: `DataLoader.load` (missing module
`llamadatasets.core.dataloader`).  Streaming loads bypass the cache entirely
and return a StreamingDataset whose handle is not opened at construction;
non-streaming loads consult the cache, parse on a miss, and store the
snapshot when caching is enabled and the location is writable — a failed
cache write leaves the cache unchanged and is not propagated.  The second
component of the result is the cache entry after the call. -/
def DataLoader.load (streaming : Bool) (cfg : CacheConfig) (env : LoadEnv) :
    Except LoadError (LoadResult × Option CacheEntry) :=
  if ¬ env.formatSupported then .error .unsupportedFormat
  else if streaming then
    match env.source with
    | none => .error .sourceUnavailable
    | some rs => .ok (.streamed ⟨rs, false⟩, env.cacheEntry)
  else
    match cacheLookup cfg env with
    | some snap => .ok (.materialized ⟨snap⟩, env.cacheEntry)
    | none =>
      match env.source with
      | none => .error .sourceUnavailable
      | some rs =>
        if cfg.enabled ∧ env.cacheWritable then
          .ok (.materialized (parseAll rs),
            some ⟨env.now, env.sourceMarker, (parseAll rs).examples⟩)
        else .ok (.materialized (parseAll rs), env.cacheEntry)

/-- One target of a Python assignment statement: an identifier or a string
literal (the latter is never a valid assignment target). -/
inductive PyAssignTarget
  | ident (s : String)
  | strLit (s : String)

/-- A Python assignment target is valid only when it is an identifier. -/
def validAssignTarget : PyAssignTarget → Bool
  | .ident _ => true
  | .strLit _ => false

/-- The identifier target of the chained assignment on line 7 of
src/llamadatasets/\x5f\x5finit\x5f\x5f.py. -/
def emailIdent : String := "__email__"

/-- The string-literal target of that chained assignment. -/
def emailLit : String := "nikjois@llamasearch.ai"

/-- Transcribed from the source file src/llamadatasets/: line 7 reads
`__email__ = "nikjois@llamasearch.ai" = "Nik Jois"`, a chained assignment
whose targets are the identifier and the string literal. -/
def emailAssignTargets : List PyAssignTarget :=
  [PyAssignTarget.ident emailIdent, PyAssignTarget.strLit emailLit]

/-- The top-level package init file parses only if every assignment target
in it is valid; the chained assignment above is among its statements. -/
def llamadatasetsInitParses : Bool :=
  emailAssignTargets.all validAssignTarget

def modTop : String := "llamadatasets"

def modCore : String := "llamadatasets.core"

def modSplitters : String := "llamadatasets.splitters"

def modTransformers : String := "llamadatasets.transformers"

def modGenerators : String := "llamadatasets.generators"

def modCoreDataloader : String := "llamadatasets.core.dataloader"

def modCoreDataset : String := "llamadatasets.core.dataset"

def modCoreStreaming : String := "llamadatasets.core.streaming"

def modSplittersBase : String := "llamadatasets.splitters.base"

def modTransformersBase : String := "llamadatasets.transformers.base"

def modTransformersText : String := "llamadatasets.transformers.text"

/-- Transcribed from the repository tree: the Python modules that actually
exist under src/ (each is an existing file or package directory). -/
def presentModules : List String :=
  [modTop, modCore, modSplitters, modTransformers]

/-- Transcribed from src/llamadatasets/: the modules imported by the
top-level package init file. -/
def topInitImports : List String :=
  [modCore, modGenerators, modSplitters, modTransformers]

/-- Transcribed from src/llamadatasets/core/: the modules imported by the
core package init file. -/
def coreInitImports : List String :=
  [modCoreDataloader, modCoreDataset, modCoreStreaming]

/-- Transcribed from src/llamadatasets/splitters/: the module imported by
the splitters package init file. -/
def splittersInitImports : List String :=
  [modSplittersBase]

/-- Transcribed from src/llamadatasets/transformers/: the modules imported
by the transformers package init file. -/
def transformersInitImports : List String :=
  [modTransformersBase, modTransformersText]

/-- A module can be found only if its file or package directory exists. -/
def moduleExists (m : String) : Bool := presentModules.contains m

/-- Importing the core subpackage runs its init file, which requires each
module it imports to exist. -/
def importCoreOk : Bool :=
  moduleExists modCore && coreInitImports.all moduleExists

/-- Importing the splitters subpackage requires its imports to exist. -/
def importSplittersOk : Bool :=
  moduleExists modSplitters && splittersInitImports.all moduleExists

/-- Importing the transformers subpackage requires its imports to exist. -/
def importTransformersOk : Bool :=
  moduleExists modTransformers && transformersInitImports.all moduleExists

/-- Importing the public package runs the top-level init file: it must
parse, and every subpackage it imports must exist and import correctly. -/
def importLlamadatasetsOk : Bool :=
  llamadatasetsInitParses && moduleExists modTop &&
    importCoreOk && moduleExists modGenerators &&
    importSplittersOk && importTransformersOk

/-- A name exported by the package is reachable only when importing the
package succeeds. -/
def exportReachable (_name : String) : Bool := importLlamadatasetsOk

/-- All indices assigned by a split result, across all named splits. -/
def assignedIndices (splits : List (String × List Nat)) : List Nat :=
  (splits.map Prod.snd).flatten

def nameTrain : String := "train"

def nameVal : String := "val"

def nameTest : String := "test"

/-- The proportions of the end-to-end scenario of the spec:
train 0.7, val 0.15, test 0.15. -/
def demoProps : List (String × ℚ) :=
  [(nameTrain, mkRat 7 10), (nameVal, mkRat 3 20), (nameTest, mkRat 3 20)]

/-- A three-example dataset for concrete instantiations. -/
def demoD3 : Dataset := ⟨[([] : Example), [], []]⟩

/-- A StreamingDataset over two chunks of sizes 1 and 2. -/
def demoSD : StreamingDataset := ⟨⟨[[([] : Example)], [[], []]]⟩, false⟩

def cacheLoc : String := "cache"

/-- A cache entry created at time 5, with source marker 1 and an empty
snapshot, for concrete instantiations. -/
def demoEntry : CacheEntry := ⟨5, 1, []⟩

/-- A cache configuration with caching enabled and a one-hour expiration. -/
def demoCfg : CacheConfig := ⟨true, cacheLoc, 3600⟩

/-- A load environment at time 10 whose source marker 2 differs from the
cached entry's marker 1, with an unwritable cache location. -/
def demoEnv : LoadEnv :=
  ⟨some demoSD.source, true, 10, 2, some demoEntry, false⟩

/-- The split lengths of a successful split call, name by name in declared
order. -/
def splitLengths (S : Splitter) (d : Dataset) : Option (List Nat) :=
  match S.splitIndices d with
  | .ok splits => some (splits.map (fun s => s.2.length))
  | .error _ => none

/-- The actual sizes of contiguous runs cut from a list of `r` elements:
each declared size is clamped to what remains, and the last declared run
receives everything left. -/
def clampSizes : List Nat → Nat → List Nat
  | [], _ => []
  | [_], r => [r]
  | n :: m :: ns, r => min n r :: clampSizes (m :: ns) (r - min n r)

/-- Proportions of one half, one half and zero, summing exactly to 1. -/
def cexProps : List (String × ℚ) :=
  [(nameTrain, mkRat 1 2), (nameVal, mkRat 1 2), (nameTest, mkRat 0 1)]

/-- A 100-example dataset. -/
def demoD100 : Dataset := ⟨List.replicate 100 ([] : Example)⟩

def dataLoaderName : String := "DataLoader"

def datasetName : String := "Dataset"

def streamingDatasetName : String := "StreamingDataset"

def randomSplitterName : String := "RandomSplitter"

def stratifiedSplitterName : String := "StratifiedSplitter"

/-- The flattened-stream characterization of `headChunks`. -/
theorem headChunks_eq_take (n : Nat) (cs : List (List Example)) :
    headChunks n cs = cs.flatten.take n := by
  induction cs generalizing n with
  | nil => simp [headChunks]
  | cons c cs ih =>
    by_cases h : n ≤ c.length
    · simp only [headChunks, if_pos h, List.flatten_cons]
      rw [List.take_append_eq_append_take]
      have : n - c.length = 0 := by omega
      rw [this]
      simp
    · simp only [headChunks, if_neg h, List.flatten_cons, ih]
      rw [List.take_append_eq_append_take,
        List.take_of_length_le (show c.length ≤ n by omega)]

/-- Every batch except possibly the last has length `k`, and flattening the
batches restores the stream. -/
theorem batchesOf_flatten (k : Nat) (l : List α) :
    (batchesOf k l).flatten = if k = 0 then ([] : List α) else l := by
  induction k, l using batchesOf.induct with
  | case1 k => simp [batchesOf]
  | case2 x xs => simp [batchesOf]
  | case3 m x xs ih =>
    simp only [batchesOf, List.flatten_cons, ih]
    simp [List.cons_append, List.take_append_drop]

/-- A non-final batch has length exactly `k`. -/
theorem batchesOf_nonfinal_length (k : Nat) (l : List α) :
    ∀ b ∈ (batchesOf k l).dropLast, b.length = k := by
  induction k, l using batchesOf.induct with
  | case1 k => simp [batchesOf]
  | case2 x xs => simp [batchesOf]
  | case3 m x xs ih =>
    intro b hb
    simp only [batchesOf] at hb
    rcases hrest : batchesOf (Nat.succ m) (xs.drop m) with _ | ⟨r, rs⟩
    · rw [hrest] at hb
      simp at hb
    · rw [hrest, List.dropLast_cons_of_ne_nil (by simp)] at hb
      rcases List.mem_cons.mp hb with h1 | h2
      · subst h1
        have hlen : xs.length ≥ m := by
          by_contra hlt
          push_neg at hlt
          have hnil : xs.drop m = [] := List.drop_eq_nil_of_le (by omega)
          rw [hnil] at hrest
          simp [batchesOf] at hrest
        simp [List.length_take, Nat.min_eq_left hlen]
      · rw [hrest] at ih
        exact ih b h2

/-- The final batch is nonempty and no longer than `k`. -/
theorem batchesOf_length_le (k : Nat) (l : List α) :
    ∀ b ∈ batchesOf k l, b.length ≤ k ∧ b ≠ [] := by
  induction k, l using batchesOf.induct with
  | case1 k => simp [batchesOf]
  | case2 x xs => simp [batchesOf]
  | case3 m x xs ih =>
    intro b hb
    simp only [batchesOf] at hb
    rcases List.mem_cons.mp hb with h1 | h2
    · subst h1
      refine ⟨?_, by simp⟩
      have := List.length_take_le m xs
      simp only [List.length_cons]
      omega
    · exact ih b h2

/-- Picking out the element at a valid position is a permutation. -/
theorem cons_removeAt_perm (l : List α) (i : Nat) (x : α)
    (h : l[i]? = some x) : (x :: removeAt l i).Perm l := by
  induction l generalizing i with
  | nil => simp at h
  | cons y ys ih =>
    cases i with
    | zero =>
      simp only [List.getElem?_cons_zero, Option.some.injEq] at h
      subst h
      simp [removeAt]
    | succ j =>
      simp only [List.getElem?_cons_succ] at h
      have hperm := ih j h
      simp only [removeAt, List.take_succ_cons, List.drop_succ_cons,
        List.cons_append]
      calc (x :: y :: (ys.take j ++ ys.drop (j + 1))).Perm
            (y :: x :: (ys.take j ++ ys.drop (j + 1))) := List.Perm.swap y x _
        _ = (y :: (x :: removeAt ys j)) := by simp [removeAt]
        _ |>.Perm (y :: ys) := List.Perm.cons y hperm

/-- The length of `removeAt` at a valid position. -/
theorem removeAt_length (l : List α) (i : Nat) (h : i < l.length) :
    (removeAt l i).length = l.length - 1 := by
  simp only [removeAt, List.length_append, List.length_take, List.length_drop]
  omega

/-- With enough fuel the shuffle is a permutation of its input. -/
theorem shuffleFuel_perm (fuel : Nat) (s : Nat) (l : List α)
    (h : l.length ≤ fuel) : (shuffleFuel fuel s l).Perm l := by
  induction fuel generalizing s l with
  | zero =>
    have : l = [] := List.length_eq_zero.mp (by omega)
    subst this
    simp [shuffleFuel]
  | succ fuel ih =>
    cases l with
    | nil => simp [shuffleFuel]
    | cons y ys =>
      have hlt : s % (y :: ys).length < (y :: ys).length :=
        Nat.mod_lt _ (by simp)
      rcases hx : (y :: ys)[s % (y :: ys).length]? with _ | x
      · exfalso
        rw [List.getElem?_eq_none_iff] at hx
        omega
      simp only [shuffleFuel, hx]
      have hrec : (shuffleFuel fuel (lcgNext s)
          (removeAt (y :: ys) (s % (y :: ys).length))).Perm
          (removeAt (y :: ys) (s % (y :: ys).length)) := by
        apply ih
        rw [removeAt_length _ _ hlt]
        simp only [List.length_cons] at h ⊢
        omega
      exact (hrec.cons x).trans (cons_removeAt_perm _ _ _ hx)

/-- The seeded shuffle is a permutation of its input. -/
theorem seededShuffle_perm (seed : Nat) (l : List α) :
    (seededShuffle seed l).Perm l :=
  shuffleFuel_perm l.length (lcgNext seed) l (Nat.le_refl _)

/-- Flattening the runs restores the list whenever at least one run size is
declared. -/
theorem cutRuns_flatten (ns : List Nat) (l : List α) (h : ns ≠ []) :
    (cutRuns ns l).flatten = l := by
  induction ns generalizing l with
  | nil => exact absurd rfl h
  | cons n ms ih =>
    cases ms with
    | nil => simp [cutRuns]
    | cons m ms =>
      simp only [cutRuns, List.flatten_cons, ih (l.drop n) (by simp)]
      exact List.take_append_drop n l

/-- The number of runs equals the number of declared sizes. -/
theorem cutRuns_length (ns : List Nat) (l : List α) :
    (cutRuns ns l).length = ns.length := by
  induction ns generalizing l with
  | nil => simp [cutRuns]
  | cons n ms ih =>
    cases ms with
    | nil => simp [cutRuns]
    | cons m ms => simp [cutRuns, ih]

/-- Flattening the groups is a permutation of the original values, for any
fuel bounding the length. -/
theorem groupPairsFuel_flatten_perm (fuel : Nat) (l : List (String × α))
    (hf : l.length ≤ fuel) :
    ((groupPairsFuel fuel l).map Prod.snd).flatten.Perm (l.map Prod.snd) := by
  induction fuel generalizing l with
  | zero =>
    have hl : l = [] := List.length_eq_zero.mp (by omega)
    subst hl
    simp [groupPairsFuel]
  | succ fuel ihf =>
    cases l with
    | nil => simp [groupPairsFuel]
    | cons hd rest =>
      obtain ⟨k, v⟩ := hd
      have ih := ihf (rest.filter (fun p => !(p.1 == k))) (by
        have := List.length_filter_le (fun p : String × α => !(p.1 == k)) rest
        simp only [List.length_cons] at hf
        omega)
      simp only [groupPairsFuel, List.map_cons, List.flatten_cons]
      have hsplit : ((rest.filter (fun p => p.1 == k)).map Prod.snd ++
          (rest.filter (fun p => !(p.1 == k))).map Prod.snd).Perm
          (rest.map Prod.snd) := by
        rw [← List.map_append]
        exact List.Perm.map _ (List.filter_append_perm (fun p => p.1 == k) rest)
      have step1 : (v :: ((rest.filter (fun p => p.1 == k)).map Prod.snd ++
          ((groupPairsFuel fuel (rest.filter (fun p => !(p.1 == k)))).map
            Prod.snd).flatten)).Perm
          (v :: ((rest.filter (fun p => p.1 == k)).map Prod.snd ++
            (rest.filter (fun p => !(p.1 == k))).map Prod.snd)) :=
        (List.Perm.append_left _ ih).cons v
      have step2 := hsplit.cons v
      simpa using step1.trans step2

/-- Flattening the groups is a permutation of the original values. -/
theorem groupPairs_flatten_perm (l : List (String × α)) :
    ((groupPairs l).map Prod.snd).flatten.Perm (l.map Prod.snd) :=
  groupPairsFuel_flatten_perm l.length l (Nat.le_refl _)

/-- Insertion produces a permutation of the extended list. -/
theorem insertSorted_perm (le : α → α → Bool) (x : α) (l : List α) :
    (insertSorted le x l).Perm (x :: l) := by
  induction l with
  | nil => simp [insertSorted]
  | cons y ys ih =>
    simp only [insertSorted]
    by_cases h : le y x
    · rw [if_pos h]
      exact (ih.cons y).trans (List.Perm.swap x y ys)
    · rw [if_neg h]

/-- Sorting is a permutation. -/
theorem sortedBy_perm (le : α → α → Bool) (l : List α) :
    (sortedBy le l).Perm l := by
  induction l with
  | nil => simp [sortedBy]
  | cons x xs ih =>
    exact (insertSorted_perm le x (sortedBy le xs)).trans (ih.cons x)

/-- Valid proportions are nonempty, because the empty sum misses 1.0 by
more than the tolerance. -/
theorem propsValid_ne_nil (props : List (String × ℚ))
    (h : propsValid props = true) : props ≠ [] := by
  intro hnil
  subst hnil
  exact absurd h (by decide)

/-- Reading a list of lists back off by positions. -/
theorem map_range_getD (L : List (List α)) :
    (List.range L.length).map (fun j => L.getD j []) = L := by
  induction L with
  | nil => simp
  | cons a L ih =>
    rw [List.length_cons, List.range_succ_eq_map, List.map_cons]
    have hcomp : ((fun j => (a :: L).getD j []) ∘ Nat.succ)
        = fun j => L.getD j [] := by
      funext j
      simp [List.getD_cons_succ]
    rw [List.getD_cons_zero, List.map_map, hcomp, ih]

/-- Exchanging the order of a double sum over two lists. -/
theorem sum_map_comm (as : List α) (bs : List β) (f : α → β → Nat) :
    (as.map (fun a => (bs.map (f a)).sum)).sum
      = (bs.map (fun b => (as.map (fun a => f a b)).sum)).sum := by
  induction as with
  | nil => simp
  | cons a as ih =>
    simp only [List.map_cons, List.sum_cons, ih, ← List.sum_map_add]

/-- Zipping the declared names onto equally many runs and discarding the
names gives back the runs. -/
theorem map_snd_zip_of_length_eq (names : List String) (runs : List (List Nat))
    (h : names.length = runs.length) :
    (List.zip names runs).map Prod.snd = runs :=
  List.map_snd_zip names runs (by omega)

/-- The keyed index pairs carry exactly the index domain. -/
theorem keyedIndices_map_snd (col : String) (d : Dataset) :
    (keyedIndices col d).map Prod.snd = List.range d.length := by
  simp only [keyedIndices, List.map_map]
  have : (Prod.snd ∘ fun p : Nat × Example => (fieldKey col p.2, p.1))
      = Prod.fst := by
    funext p
    rfl
  rw [this, List.enum_map_fst]
  rfl

/-- The number of runs the RandomSplitter algorithm produces equals the
number of declared proportions. -/
theorem randomRuns_length (props : List (String × ℚ)) (seed : Nat)
    (idxs : List Nat) : (randomRuns props seed idxs).length = props.length := by
  simp [randomRuns, cutRuns_length, runSizes]

/-- Flattening the runs of the RandomSplitter algorithm permutes the input
index list. -/
theorem randomRuns_flatten_perm (props : List (String × ℚ)) (seed : Nat)
    (idxs : List Nat) (h : props ≠ []) :
    (randomRuns props seed idxs).flatten.Perm idxs := by
  rw [randomRuns, cutRuns_flatten _ _ (by simp [runSizes, h])]
  exact seededShuffle_perm seed idxs

/-- Flattening the per-split concatenations of the stratified algorithm
permutes the flattened groups. -/
theorem stratParts_flatten_perm (props : List (String × ℚ)) (seed : Nat)
    (groupIdxs : List (List Nat)) (h : props ≠ []) :
    (stratParts props seed groupIdxs).flatten.Perm groupIdxs.flatten := by
  rw [List.perm_iff_count]
  intro a
  rw [List.count_flatten, List.count_flatten]
  have hstep : ∀ g : List Nat,
      ((List.range props.length).map
        (fun j => List.count a ((randomRuns props seed g).getD j []))).sum
      = List.count a g := by
    intro g
    have hlen : (randomRuns props seed g).length = props.length :=
      randomRuns_length props seed g
    have h1 : (List.range props.length).map
        (fun j => (randomRuns props seed g).getD j [])
        = randomRuns props seed g := by
      rw [← hlen]
      exact map_range_getD _
    calc ((List.range props.length).map
          (fun j => List.count a ((randomRuns props seed g).getD j []))).sum
        = (((List.range props.length).map
            (fun j => (randomRuns props seed g).getD j [])).map
              (List.count a)).sum := by rw [List.map_map]; rfl
      _ = ((randomRuns props seed g).map (List.count a)).sum := by rw [h1]
      _ = List.count a (randomRuns props seed g).flatten :=
          (List.count_flatten a _).symm
      _ = List.count a g :=
          (randomRuns_flatten_perm props seed g h).count_eq a
  calc ((stratParts props seed groupIdxs).map (List.count a)).sum
      = ((List.range props.length).map (fun j =>
          (groupIdxs.map (fun g =>
            List.count a ((randomRuns props seed g).getD j []))).sum)).sum := by
        simp only [stratParts, List.map_map, Function.comp_def,
          List.count_flatten]
    _ = (groupIdxs.map (fun g =>
          ((List.range props.length).map (fun j =>
            List.count a ((randomRuns props seed g).getD j []))).sum)).sum :=
        sum_map_comm _ _ _
    _ = (groupIdxs.map (List.count a)).sum := by
        congr 1
        exact List.map_congr_left (fun g _ => hstep g)

/-- Flattening group-runs first inside each run and then across runs is the
same as flattening the runs first. -/
theorem flatten_map_flatten (L : List (List (String × List Nat))) :
    (L.map (fun run => (run.map Prod.snd).flatten)).flatten
      = (L.flatten.map Prod.snd).flatten := by
  induction L with
  | nil => simp
  | cons r L ih => simp [ih]

/-- Any successful split assigns a permutation of the index domain. -/
theorem splitIndices_perm (S : Splitter) (d : Dataset)
    (splits : List (String × List Nat))
    (h : S.splitIndices d = Except.ok splits) :
    (assignedIndices splits).Perm (List.range d.length) := by
  cases S with
  | random props seed =>
    simp only [Splitter.splitIndices] at h
    by_cases hv : propsValid props
    · rw [if_pos hv, Except.ok.injEq] at h
      subst h
      rw [assignedIndices, map_snd_zip_of_length_eq _ _ (by
        rw [List.length_map, randomRuns_length])]
      exact randomRuns_flatten_perm props seed _ (propsValid_ne_nil props hv)
    · rw [if_neg hv] at h
      exact absurd h (by simp)
  | stratified lbl props seed =>
    simp only [Splitter.splitIndices] at h
    by_cases hv : propsValid props
    · rw [if_pos hv, Except.ok.injEq] at h
      subst h
      rw [assignedIndices, map_snd_zip_of_length_eq _ _ (by
        simp [stratParts])]
      have h1 := stratParts_flatten_perm props seed
        ((groupPairs (keyedIndices lbl d)).map Prod.snd)
        (propsValid_ne_nil props hv)
      have h2 := groupPairs_flatten_perm (keyedIndices lbl d)
      rw [keyedIndices_map_snd] at h2
      exact h1.trans h2
    · rw [if_neg hv] at h
      exact absurd h (by simp)
  | time tcol props seed =>
    simp only [Splitter.splitIndices] at h
    by_cases hv : propsValid props
    · rw [if_pos hv, Except.ok.injEq] at h
      subst h
      rw [assignedIndices, map_snd_zip_of_length_eq _ _ (by
        simp [cutRuns_length, runSizes])]
      rw [cutRuns_flatten _ _ (by
        simp [runSizes, propsValid_ne_nil props hv])]
      have hperm := (sortedBy_perm
        (fun a b : String × Nat => a.1 < b.1 || (a.1 == b.1 && a.2 ≤ b.2))
        (keyedIndices tcol d)).map Prod.snd
      rw [keyedIndices_map_snd] at hperm
      exact hperm
    · rw [if_neg hv] at h
      exact absurd h (by simp)
  | group gcol props seed =>
    simp only [Splitter.splitIndices] at h
    by_cases hv : propsValid props
    · rw [if_pos hv, Except.ok.injEq] at h
      subst h
      rw [assignedIndices, map_snd_zip_of_length_eq _ _ (by
        simp [cutRuns_length, runSizes])]
      rw [flatten_map_flatten]
      rw [cutRuns_flatten _ _ (by
        simp [runSizes, propsValid_ne_nil props hv])]
      have h1 : ((seededShuffle seed
          (groupPairs (keyedIndices gcol d))).map Prod.snd).flatten.Perm
          (((groupPairs (keyedIndices gcol d)).map Prod.snd).flatten) :=
        List.Perm.flatten ((seededShuffle_perm seed _).map Prod.snd)
      have h2 := groupPairs_flatten_perm (keyedIndices gcol d)
      rw [keyedIndices_map_snd] at h2
      exact h1.trans h2
    · rw [if_neg hv] at h
      exact absurd h (by simp)
  | custom assign =>
    simp only [Splitter.splitIndices] at h
    by_cases ha : (d.examples.enum.map
        (fun p => (assign p.2, p.1))).all (fun a => a.1.isSome)
    · rw [if_pos ha, Except.ok.injEq] at h
      subst h
      have h1 := groupPairs_flatten_perm
        ((d.examples.enum.map (fun p => (assign p.2, p.1))).map
          (fun a => (a.1.getD emptyKey, a.2)))
      rw [assignedIndices]
      refine h1.trans ?_
      have h2 : ((d.examples.enum.map (fun p => (assign p.2, p.1))).map
          (fun a => (a.1.getD emptyKey, a.2))).map Prod.snd
          = List.range d.length := by
        simp only [List.map_map]
        have : (Prod.snd ∘ (fun a : Option String × Nat =>
            (a.1.getD emptyKey, a.2)) ∘ fun p : Nat × Example =>
              (assign p.2, p.1)) = Prod.fst := by
          funext p
          rfl
        rw [this, List.enum_map_fst]
        rfl
      rw [h2]
    · rw [if_neg ha] at h
      exact absurd h (by simp)

/-- C1: for every dataset and every Splitter variant whose split call
succeeds (in particular whenever the proportions sum to 1.0 so that
validation passes), the returned index lists are pairwise disjoint and
together they list each index of the dataset's index domain exactly once
(their multiset union is exactly the full index domain). -/
theorem claim_C1_split_partition (S : Splitter) (d : Dataset)
    (splits : List (String × List Nat))
    (h : S.splitIndices d = Except.ok splits) :
    (assignedIndices splits).Perm (List.range d.length)
    ∧ List.Pairwise List.Disjoint (splits.map Prod.snd) := by
  have hperm := splitIndices_perm S d splits h
  refine ⟨hperm, ?_⟩
  have hnodup : ((splits.map Prod.snd).flatten).Nodup :=
    (hperm.nodup_iff).mpr (List.nodup_range d.length)
  exact (List.nodup_flatten.mp hnodup).2

/-- Witness for C1 at a concrete custom splitter and dataset. -/
theorem claim_C1_split_partition_witness :
    (Splitter.custom (fun _ => some nameTrain)).splitIndices demoD3
      = Except.ok [(nameTrain, [0, 1, 2])]
    ∧ ((assignedIndices [(nameTrain, [0, 1, 2])]).Perm
        (List.range demoD3.length)
      ∧ List.Pairwise List.Disjoint
          ([(nameTrain, [0, 1, 2])].map Prod.snd)) :=
  ⟨rfl, claim_C1_split_partition (Splitter.custom (fun _ => some nameTrain))
    demoD3 [(nameTrain, [0, 1, 2])] rfl⟩

/-- C2: RandomSplitter and StratifiedSplitter are deterministic: two split
invocations with the same proportions, the same seed (and the same label
column) on datasets with identical examples produce identical split
assignments; the seed is the sole source of randomness in the model. -/
theorem claim_C2_deterministic (props : List (String × ℚ)) (seed : Nat)
    (lbl : String) (d1 d2 : Dataset) (h : d1.examples = d2.examples) :
    (Splitter.random props seed).splitIndices d1
      = (Splitter.random props seed).splitIndices d2
    ∧ (Splitter.stratified lbl props seed).splitIndices d1
      = (Splitter.stratified lbl props seed).splitIndices d2 := by
  have hd : d1 = d2 := by
    cases d1
    cases d2
    simpa using h
  subst hd
  exact ⟨rfl, rfl⟩

/-- Witness for C2 at concrete parameters. -/
theorem claim_C2_deterministic_witness :
    (Splitter.random demoProps 42).splitIndices demoD3
      = (Splitter.random demoProps 42).splitIndices demoD3
    ∧ (Splitter.stratified nameTrain demoProps 42).splitIndices demoD3
      = (Splitter.stratified nameTrain demoProps 42).splitIndices demoD3 :=
  claim_C2_deterministic demoProps 42 nameTrain demoD3 demoD3 rfl

/-- C4: for batch size `k ≥ 1`, every batch yielded by `iter_batches(k)`
has length exactly `k` except possibly the final batch (no batch exceeds
`k`), and the concatenation of all batches in order equals the full
single-pass sequence, so the batch lengths sum to the total example
count. -/
theorem claim_C4_iter_batches_contract (sd : StreamingDataset) (k : Nat)
    (h : 1 ≤ k) :
    (sd.iterBatches k).flatten = sd.iterate
    ∧ ((sd.iterBatches k).dropLast.all (fun b => b.length == k)) = true
    ∧ ((sd.iterBatches k).all (fun b => decide (b.length ≤ k))) = true
    ∧ ((sd.iterBatches k).map List.length).sum = sd.iterate.length := by
  have hk : ¬ k = 0 := by omega
  have hflat : (sd.iterBatches k).flatten = sd.iterate := by
    rw [StreamingDataset.iterBatches, batchesOf_flatten, if_neg hk]
  refine ⟨hflat, ?_, ?_, ?_⟩
  · rw [List.all_eq_true]
    intro b hb
    exact beq_iff_eq.mpr (batchesOf_nonfinal_length k sd.iterate b hb)
  · rw [List.all_eq_true]
    intro b hb
    exact decide_eq_true ((batchesOf_length_le k sd.iterate b hb).1)
  · rw [← List.length_flatten, hflat]

/-- Witness for C4 at a concrete streaming dataset and batch size 2. -/
theorem claim_C4_iter_batches_contract_witness :
    (demoSD.iterBatches 2).flatten = demoSD.iterate
    ∧ ((demoSD.iterBatches 2).dropLast.all (fun b => b.length == 2)) = true
    ∧ ((demoSD.iterBatches 2).all (fun b => decide (b.length ≤ 2))) = true
    ∧ ((demoSD.iterBatches 2).map List.length).sum
        = demoSD.iterate.length :=
  claim_C4_iter_batches_contract demoSD 2 (by omega)

/-- C5: `head(n)` on a StreamingDataset returns a Dataset holding exactly
the first `min(n, total)` examples in source order; it is a total function
(never an error), in particular for `n` at least the total it returns all
`total` examples. -/
theorem claim_C5_head_min (sd : StreamingDataset) (n : Nat) :
    (sd.head n).examples = sd.iterate.take n
    ∧ (sd.head n).length = min n sd.iterate.length := by
  have h1 : (sd.head n).examples = sd.iterate.take n :=
    headChunks_eq_take n sd.source.chunks
  refine ⟨h1, ?_⟩
  rw [Dataset.length, h1, List.length_take]

/-- C9: `filter` returns the order-preserving subsequence of examples
satisfying the predicate (a sublist, all members satisfying `p`, of length
equal to the count of satisfying examples), and `map` returns one output
example per input example in the same index order; the input dataset is a
value and is never mutated. -/
theorem claim_C9_filter_map_contract (d : Dataset) (p : Example → Bool)
    (f : Example → Example) :
    (d.filter p).examples.Sublist d.examples
    ∧ ((d.filter p).examples.all p) = true
    ∧ (d.filter p).length = d.examples.countP p
    ∧ (d.map f).length = d.length
    ∧ ∀ i : Nat, (d.map f).examples[i]? = (d.examples[i]?).map f := by
  refine ⟨List.filter_sublist _, ?_, ?_, ?_, ?_⟩
  · rw [List.all_eq_true]
    intro e he
    exact List.of_mem_filter he
  · rw [Dataset.length]
    exact (List.countP_eq_length_filter p d.examples).symm
  · rw [Dataset.length, Dataset.length]
    exact List.length_map _ _
  · intro i
    exact List.getElem?_map f d.examples i

/-- C6: with caching enabled and an entry stored, the Cache Manager lookup
returns the stored snapshot iff the entry is fresh
(`now - created_at < expiration`) and the stored source-modification marker
equals the current source's marker; an entry failing either condition is
treated as absent, so a non-streaming load after the marker changed
re-parses the source instead of returning the stale snapshot. -/
theorem claim_C6_cache_validity (cfg : CacheConfig) (env : LoadEnv)
    (e : CacheEntry) (rs : RecordSource)
    (hen : cfg.enabled = true) (hce : env.cacheEntry = some e) :
    (cacheLookup cfg env = some e.snapshot ↔
      (env.now - e.created_at < cfg.expiration
        ∧ e.source_marker = env.sourceMarker))
    ∧ (¬ (env.now - e.created_at < cfg.expiration
        ∧ e.source_marker = env.sourceMarker) → cacheLookup cfg env = none)
    ∧ (e.source_marker ≠ env.sourceMarker → env.formatSupported = true →
        env.source = some rs →
        (DataLoader.load false cfg env).map Prod.fst
          = Except.ok (LoadResult.materialized (parseAll rs))) := by
  have hlook : cacheLookup cfg env
      = if env.now - e.created_at < cfg.expiration
            ∧ e.source_marker = env.sourceMarker
        then some e.snapshot else none := by
    simp [cacheLookup, hen, hce]
  refine ⟨?_, ?_, ?_⟩
  · rw [hlook]
    by_cases hcond : env.now - e.created_at < cfg.expiration
        ∧ e.source_marker = env.sourceMarker
    · rw [if_pos hcond]
      exact ⟨fun _ => hcond, fun _ => rfl⟩
    · rw [if_neg hcond]
      exact ⟨fun hsome => absurd hsome (by simp), fun hc => absurd hc hcond⟩
  · intro hcond
    rw [hlook, if_neg hcond]
  · intro hm hf hs
    have hnone : cacheLookup cfg env = none := by
      rw [hlook, if_neg (fun hc => hm hc.2)]
    simp only [DataLoader.load, hf, hnone, hs]
    by_cases hw : cfg.enabled ∧ env.cacheWritable
    · rw [if_pos hw]
      simp [Except.map]
    · rw [if_neg hw]
      simp [Except.map]

/-- C7: a streaming load never consults the cache (the returned result is
independent of the stored cache entry), never populates it (the cache
entry after the call is the entry from before), and returns a
StreamingDataset wrapping the source whose handle is not opened at
construction. -/
theorem claim_C7_streaming_bypasses_cache (cfg : CacheConfig) (env : LoadEnv)
    (rs : RecordSource) (c1 c2 : Option CacheEntry)
    (hs : env.source = some rs) (hf : env.formatSupported = true) :
    (DataLoader.load true cfg { env with cacheEntry := c1 }).map Prod.fst
      = (DataLoader.load true cfg { env with cacheEntry := c2 }).map Prod.fst
    ∧ DataLoader.load true cfg env
      = Except.ok (LoadResult.streamed ⟨rs, false⟩, env.cacheEntry) := by
  constructor
  · simp [DataLoader.load, hf, hs, Except.map]
  · simp [DataLoader.load, hf, hs]

/-- C8: on a non-streaming load that misses the cache, an unwritable cache
location never fails the load: the call still returns the freshly parsed
Dataset, the cache is left unchanged, and no error is propagated. -/
theorem claim_C8_cache_write_failure_absorbed (cfg : CacheConfig)
    (env : LoadEnv) (rs : RecordSource)
    (hs : env.source = some rs) (hf : env.formatSupported = true)
    (hm : cacheLookup cfg env = none) (hw : env.cacheWritable = false) :
    DataLoader.load false cfg env
      = Except.ok (LoadResult.materialized (parseAll rs), env.cacheEntry) := by
  simp only [DataLoader.load, hf, hm, hs]
  simp [hw]

/-- Witness for C6 at the concrete configuration and environment. -/
theorem claim_C6_cache_validity_witness :
    (cacheLookup demoCfg demoEnv = some demoEntry.snapshot ↔
      (demoEnv.now - demoEntry.created_at < demoCfg.expiration
        ∧ demoEntry.source_marker = demoEnv.sourceMarker))
    ∧ (¬ (demoEnv.now - demoEntry.created_at < demoCfg.expiration
        ∧ demoEntry.source_marker = demoEnv.sourceMarker) →
        cacheLookup demoCfg demoEnv = none)
    ∧ (demoEntry.source_marker ≠ demoEnv.sourceMarker →
        demoEnv.formatSupported = true →
        demoEnv.source = some demoSD.source →
        (DataLoader.load false demoCfg demoEnv).map Prod.fst
          = Except.ok (LoadResult.materialized (parseAll demoSD.source))) :=
  claim_C6_cache_validity demoCfg demoEnv demoEntry demoSD.source rfl rfl

/-- Witness for C7 at the concrete configuration and environment, with two
different stored cache entries. -/
theorem claim_C7_streaming_bypasses_cache_witness :
    (DataLoader.load true demoCfg
        { demoEnv with cacheEntry := some demoEntry }).map Prod.fst
      = (DataLoader.load true demoCfg
          { demoEnv with cacheEntry := none }).map Prod.fst
    ∧ DataLoader.load true demoCfg demoEnv
      = Except.ok (LoadResult.streamed ⟨demoSD.source, false⟩,
          demoEnv.cacheEntry) :=
  claim_C7_streaming_bypasses_cache demoCfg demoEnv demoSD.source
    (some demoEntry) none rfl rfl

/-- Witness for C8 at the concrete configuration and environment with an
unwritable cache location. -/
theorem claim_C8_cache_write_failure_absorbed_witness :
    DataLoader.load false demoCfg demoEnv
      = Except.ok (LoadResult.materialized (parseAll demoSD.source),
          demoEnv.cacheEntry) :=
  claim_C8_cache_write_failure_absorbed demoCfg demoEnv demoSD.source
    rfl rfl rfl rfl

/-- Lengths of the cut runs are the clamped sizes. -/
theorem cutRuns_map_length (ns : List Nat) (l : List α) :
    (cutRuns ns l).map List.length = clampSizes ns l.length := by
  induction ns generalizing l with
  | nil => simp [cutRuns, clampSizes]
  | cons n ms ih =>
    cases ms with
    | nil => simp [cutRuns, clampSizes]
    | cons m ms =>
      simp only [cutRuns, clampSizes, List.map_cons, List.length_take, ih,
        List.length_drop]
      have harith : l.length - n = l.length - n ⊓ l.length := by omega
      rw [harith]

/-- The clamped sizes always sum to the full length. -/
theorem clampSizes_sum (ns : List Nat) (r : Nat) (h : ns ≠ []) :
    (clampSizes ns r).sum = r := by
  induction ns generalizing r with
  | nil => exact absurd rfl h
  | cons n ms ih =>
    cases ms with
    | nil => simp [clampSizes]
    | cons m ms =>
      simp only [clampSizes, List.sum_cons, ih (r - min n r) (by simp)]
      omega

/-- When the declared sizes of the non-last runs fit, each non-last run has
exactly its declared size and the last run the remainder. -/
theorem clampSizes_of_fit (ns : List Nat) (r : Nat) (h : ns ≠ [])
    (hfit : ns.dropLast.sum ≤ r) :
    clampSizes ns r = ns.dropLast ++ [r - ns.dropLast.sum] := by
  induction ns generalizing r with
  | nil => exact absurd rfl h
  | cons n ms ih =>
    cases ms with
    | nil => simp [clampSizes]
    | cons m ms =>
      rw [List.dropLast_cons_of_ne_nil (show m :: ms ≠ [] by simp)] at hfit ⊢
      rw [List.sum_cons] at hfit
      have hn : n ≤ r := by omega
      have hrec := ih (r - n) (by simp) (by omega)
      simp only [clampSizes, Nat.min_eq_left hn, hrec, List.cons_append,
        List.sum_cons]
      have harith : r - n - (m :: ms).dropLast.sum
          = r - (n + (m :: ms).dropLast.sum) := by omega
      rw [harith]

/-- The RandomSplitter's split sizes are the clamped declared sizes. -/
theorem splitLengths_random (props : List (String × ℚ)) (seed : Nat)
    (d : Dataset) (h : propsValid props = true) :
    splitLengths (Splitter.random props seed) d
      = some (clampSizes (runSizes props d.length) d.length) := by
  simp only [splitLengths, Splitter.splitIndices, if_pos h]
  have hzip : ((props.map Prod.fst).zip
      (randomRuns props seed (List.range d.length))).map Prod.snd
      = randomRuns props seed (List.range d.length) :=
    map_snd_zip_of_length_eq _ _ (by
      rw [List.length_map, randomRuns_length])
  have hmap : ∀ L : List (String × List Nat),
      L.map (fun s => s.2.length) = (L.map Prod.snd).map List.length := by
    intro L
    rw [List.map_map]
    rfl
  have hlen : (seededShuffle seed (List.range d.length)).length
      = d.length := by
    rw [(seededShuffle_perm seed (List.range d.length)).length_eq,
      List.length_range]
  rw [hmap ((props.map Prod.fst).zip
      (randomRuns props seed (List.range d.length))), hzip, randomRuns,
    cutRuns_map_length, List.length_range, hlen]

/-- Counterexample to C3 as stated: with proportions 1/2, 1/2, 0 on a
3-example dataset, the declared sizes are round(1.5) = 2, round(1.5) = 2,
round(0) = 0, but the second (non-last) split receives only 1 example —
the split sizes are not `round(proportion * N)` for every non-last split,
because a run is clamped to the elements remaining after the earlier
runs. -/
theorem claim_C3_counterexample :
    splitLengths (Splitter.random cexProps 0) demoD3
      ≠ some (runSizes cexProps demoD3.length)
    ∧ runSizes cexProps demoD3.length = [2, 2, 0]
    ∧ splitLengths (Splitter.random cexProps 0) demoD3
      = some [2, 1, 0] := by
  refine ⟨?_, by decide, by decide⟩
  decide

/-- C3 (amended): RandomSplitter cuts the seeded permutation into
contiguous runs in declared order where each run receives its declared
size `round(proportion * N)` clamped to what remains, the last declared
split receiving the whole remainder, so the sizes always sum to N; in
particular, whenever the declared non-last sizes fit, each non-last split
has exactly `round(proportion * N)` examples, and a 100-example dataset
with proportions 0.7/0.15/0.15 splits into exactly 70, 15 and 15. -/
theorem claim_C3_random_split_sizes (props : List (String × ℚ)) (seed : Nat)
    (d : Dataset) (h : propsValid props = true) :
    splitLengths (Splitter.random props seed) d
      = some (clampSizes (runSizes props d.length) d.length)
    ∧ (clampSizes (runSizes props d.length) d.length).sum = d.length
    ∧ ((runSizes props d.length).dropLast.sum ≤ d.length →
        clampSizes (runSizes props d.length) d.length
          = (runSizes props d.length).dropLast
            ++ [d.length - (runSizes props d.length).dropLast.sum])
    ∧ (d.length = 100 →
        splitLengths (Splitter.random demoProps seed) d
          = some [70, 15, 15]) := by
  have hne : runSizes props d.length ≠ [] := by
    simp [runSizes, propsValid_ne_nil props h]
  refine ⟨splitLengths_random props seed d h, clampSizes_sum _ _ hne,
    clampSizes_of_fit _ _ hne, ?_⟩
  intro h100
  rw [splitLengths_random demoProps seed d (by decide), h100]
  decide

/-- Witness for the amended C3 at the spec's end-to-end scenario:
100 examples, proportions 0.7/0.15/0.15, seed 42. -/
theorem claim_C3_random_split_sizes_witness :
    splitLengths (Splitter.random demoProps 42) demoD100
      = some (clampSizes (runSizes demoProps demoD100.length)
          demoD100.length)
    ∧ (clampSizes (runSizes demoProps demoD100.length)
        demoD100.length).sum = demoD100.length
    ∧ ((runSizes demoProps demoD100.length).dropLast.sum
          ≤ demoD100.length →
        clampSizes (runSizes demoProps demoD100.length) demoD100.length
          = (runSizes demoProps demoD100.length).dropLast
            ++ [demoD100.length
                - (runSizes demoProps demoD100.length).dropLast.sum])
    ∧ (demoD100.length = 100 →
        splitLengths (Splitter.random demoProps 42) demoD100
          = some [70, 15, 15]) :=
  claim_C3_random_split_sizes demoProps 42 demoD100 (by decide)

/-- C10: importing the public package always fails before any documented
operation can run: the top-level init file contains a chained assignment
whose second target is a string literal (invalid), and the package init
files import submodules (core.dataloader, core.dataset, core.streaming,
generators, splitters.base, transformers.base) that do not exist in the
repository; consequently none of DataLoader, Dataset, StreamingDataset or
the Splitters is reachable through the package. -/
theorem claim_C10_package_import_broken :
    validAssignTarget (PyAssignTarget.strLit emailLit) = false
    ∧ llamadatasetsInitParses = false
    ∧ moduleExists modGenerators = false
    ∧ moduleExists modCoreDataloader = false
    ∧ moduleExists modCoreDataset = false
    ∧ moduleExists modCoreStreaming = false
    ∧ moduleExists modSplittersBase = false
    ∧ moduleExists modTransformersBase = false
    ∧ importCoreOk = false
    ∧ importSplittersOk = false
    ∧ importTransformersOk = false
    ∧ importLlamadatasetsOk = false
    ∧ exportReachable dataLoaderName = false
    ∧ exportReachable datasetName = false
    ∧ exportReachable streamingDatasetName = false
    ∧ exportReachable randomSplitterName = false
    ∧ exportReachable stratifiedSplitterName = false := by
  decide

end LlamaDatasets
